import Mathlib

/-!
# Verification of the MFEM nonlinear operator assembly layer

Shallow embedding of the nonlinear-form assembly layer of the repository
(`src/fem/nonlinearform.hpp`, `src/examples/ex9p.cpp`).

The repository ships only the *declarations* of `NonlinearForm` and
`BlockNonlinearForm` (the header `nonlinearform.hpp`); the method bodies of
`Mult`, `GetGradient`, `SetEssentialBC` and `SetSpaces` are not part of the
source tree.  Those operations are therefore modelled from the specification
(each such definition carries a doc comment starting `Modelled from the
spec:`).  `SetEssentialVDofs` is defined inline in the header and is embedded
from the source.  `FE_Evolution`, `velocity_function` and `inflow_function`
are embedded from `src/examples/ex9p.cpp`.

Machine doubles are modelled as rationals; irrational double constants
(`M_PI`, the `sqrt` values of the translation velocity) are abstract
parameters, since no claim depends on their numeric values.
-/

namespace Mfem

/-- Global vectors are modelled as total functions from dof index to value
(the `Vector` class of the library; the size lives in the assembler's
`fes` field, mirroring `Operator::height`). -/
def Vec : Type := ℕ → ℚ

/-- Sparse matrices are modelled extensionally as entry functions. -/
def Mat : Type := ℕ → ℕ → ℚ

/-- The all-zero vector. -/
def zeroVec : Vec := fun _ => 0

/-- Pointwise vector addition (scatter-add accumulation). -/
def vecAdd (u v : Vec) : Vec := fun i => u i + v i

/-- Modelled from the spec: a Local Contribution (`NonlinearFormIntegrator`,
whose class body is not under `src/`): given the trial vector it yields its
globally scattered residual increment and Jacobian increment.  The
restriction/scatter mechanics belong to the Field Space collaborator, which
the spec consumes but does not re-specify, so a contribution is modelled by
its global additive effect. -/
structure NLContribution where
  residual : Vec → Vec
  jacobian : Vec → Mat

/-- The single-field assembler state, mirroring the protected members of
`class NonlinearForm` in `src/fem/nonlinearform.hpp`: the field space
(represented by its unknown size `fes`), the list `dfi` of domain
integrators, the mutable cached Jacobian `Grad`, and the essential vdof
list `ess_vdofs`. -/
structure NonlinearForm where
  fes : ℕ
  dfi : List NLContribution
  Grad : Option Mat
  ess_vdofs : List ℕ

/-- `NonlinearForm::SetEssentialVDofs` (header, lines 50–53): replaces the
essential-vdof list with a copy of the supplied list
(`ess_vdofs_list.Copy(ess_vdofs)`); nothing else is touched. -/
def NonlinearForm.SetEssentialVDofs (nf : NonlinearForm) (ess_vdofs_list : List ℕ) :
    NonlinearForm :=
  { nf with ess_vdofs := ess_vdofs_list }

/-- Modelled from the spec: the accumulation phase of `NonlinearForm::Mult`
(body not under `src/`): "for every registered contribution, evaluate its
local residual against the restriction of `x` and scatter-add into `y`". -/
def NonlinearForm.accumulate (nf : NonlinearForm) (x : Vec) : Vec :=
  nf.dfi.foldl (fun y c => vecAdd y (c.residual x)) zeroVec

/-- Modelled from the spec: residual elimination — "for every index in the
Essential Constraint Set, overwrite `y` at that index with the corresponding
entry of `x`". -/
def eliminateVec (E : List ℕ) (x y : Vec) : Vec :=
  fun i => if i ∈ E then x i else y i

/-- Modelled from the spec: `NonlinearForm::Mult` (body not under `src/`):
full accumulation over `dfi`, then essential elimination strictly after. -/
def NonlinearForm.Mult (nf : NonlinearForm) (x : Vec) : Vec :=
  eliminateVec nf.ess_vdofs x (nf.accumulate x)

/-- Modelled from the spec: Jacobian assembly inside
`NonlinearForm::GetGradient` (body not under `src/`): scatter-add every
contribution's local Jacobian into a fresh matrix, then for every row/column
index in the Essential Constraint Set zero the row and column and set the
diagonal entry to one. -/
def NonlinearForm.assembleGrad (nf : NonlinearForm) (x : Vec) : Mat :=
  fun i j =>
    if i ∈ nf.ess_vdofs ∨ j ∈ nf.ess_vdofs then
      (if i = j ∧ i ∈ nf.ess_vdofs then 1 else 0)
    else nf.dfi.foldl (fun A c => fun i j => A i j + c.jacobian x i j)
      (fun _ _ => 0) i j

/-- Modelled from the spec: `NonlinearForm::GetGradient` (body not under
`src/`): "discards and frees any previously cached Jacobian", builds the
matrix freshly from the contributions at `x`, caches it in `Grad` and
returns it. -/
def NonlinearForm.GetGradient (nf : NonlinearForm) (x : Vec) : Mat × NonlinearForm :=
  let G := nf.assembleGrad x
  (G, { nf with Grad := some G })

/-- Modelled from the spec: `NonlinearForm::SetEssentialBC` (body not under
`src/`).  The Field Space's resolution of the boundary marker to a concrete
dof set is an external collaborator, so the model receives the resolved list
directly.  It replaces the Essential Constraint Set wholesale, and when a
`rhs` vector is supplied, overwrites its prescribed entries with the
corresponding values of the current state at call time, leaving every other
entry unchanged. -/
def NonlinearForm.SetEssentialBC (nf : NonlinearForm) (resolved : List ℕ)
    (state : Vec) (rhs : Option Vec) : NonlinearForm × Option Vec :=
  ({ nf with ess_vdofs := resolved },
   match rhs with
   | none => none
   | some r => some (fun i => if i ∈ resolved then state i else r i))

end Mfem

namespace Ex9p

/-- The part of the `FE_Evolution` state (from `src/examples/ex9p.cpp`) that
`GetGradient` touches: the `M_in_lhs` flag (`HasLHS`), the referenced
matrices `M` and `K`, and the two mutable cached Jacobians.  The matrix
carrier is abstract — `GetGradient` only moves matrices around. -/
structure FE_Evolution (Mt : Type) where
  hasLHS : Bool
  M : Mt
  K : Mt
  iJacobian : Option Mt
  rJacobian : Option Mt

/-- `FE_Evolution::GetGradient(x)` from `src/examples/ex9p.cpp` lines
500–512: it first executes `delete rJacobian;`, then, if `HasLHS()`, stores
a fresh wrapper of `K` as the new `rJacobian` and returns it; otherwise it
calls `mfem_error` ("Capability not coded!"), modelled as `Except.error`,
with the old cache already freed. -/
def FE_Evolution.GetGradient {Mt : Type} (fe : FE_Evolution Mt) :
    Except Unit Mt × FE_Evolution Mt :=
  let fe1 := { fe with rJacobian := (none : Option Mt) }
  if fe.hasLHS then
    (Except.ok fe.K, { fe1 with rJacobian := some fe.K })
  else
    (Except.error (), fe1)

/-- `inflow_function` from `src/examples/ex9p.cpp` lines 644–654: a switch
on the global `problem` selector where cases 0–3 return `0.0`, followed by
an unconditional `return 0.0;`.  The point `x` is never read. -/
def inflow_function (problem : ℤ) (x : List ℚ) : ℚ :=
  match problem with
  | 0 => 0
  | 1 => 0
  | 2 => 0
  | 3 => 0
  | _ => 0

/-- `velocity_function` from `src/examples/ex9p.cpp` lines 534–588.  The
mesh bounding box `bb_min`/`bb_max` and the global `problem` selector are
passed explicitly; `v` is the output vector being written (entries beyond
those assigned keep their incoming values, as in the C++ out-parameter).
`piv` stands for the double constant `M_PI`, and `s23 s13 s36 s26 s16` for
the `sqrt` constants of the translation case; their numeric values are
irrelevant to every claim, so they are parameters of the model.  `X` is the
map of `x` to the reference `[-1,1]` domain. -/
def velocity_function (piv s23 s13 s36 s26 s16 : ℚ)
    (bb_min bb_max : List ℚ) (problem : ℤ) (x : List ℚ) (v : List ℚ) : List ℚ :=
  let dim := x.length
  let X : ℕ → ℚ := fun i =>
    2 * (x.getD i 0 - (bb_min.getD i 0 + bb_max.getD i 0) / 2)
      / (bb_max.getD i 0 - bb_min.getD i 0)
  match problem with
  | 0 =>
    match dim with
    | 1 => v.set 0 1
    | 2 => (v.set 0 s23).set 1 s13
    | 3 => ((v.set 0 s36).set 1 s26).set 2 s16
    | _ => v
  | 1 | 2 =>
    let w := piv / 2
    match dim with
    | 1 => v.set 0 1
    | 2 => (v.set 0 (w * X 1)).set 1 (-w * X 0)
    | 3 => ((v.set 0 (w * X 1)).set 1 (-w * X 0)).set 2 0
    | _ => v
  | 3 =>
    let w := piv / 2
    let d0 := max ((X 0 + 1) * (1 - X 0)) 0 * max ((X 1 + 1) * (1 - X 1)) 0
    let d := d0 * d0
    match dim with
    | 1 => v.set 0 1
    | 2 => (v.set 0 (d * w * X 1)).set 1 (-d * w * X 0)
    | 3 => ((v.set 0 (d * w * X 1)).set 1 (-d * w * X 0)).set 2 0
    | _ => v
  | _ => v

end Ex9p

namespace Mfem

/-- Modelled from the spec: a multi-field Local Contribution
(`BlockNonlinearFormIntegrator`, whose class body is not under `src/`).
`couples i j` says whether the contribution produces a Jacobian sub-block
for the field pair `(i, j)`; `jacBlock` gives the globally scattered
sub-block increment at the block trial vector (a family of per-field
slices). -/
structure BlockContribution where
  couples : ℕ → ℕ → Bool
  jacBlock : (ℕ → Vec) → ℕ → ℕ → Mat

/-- The multi-field assembler state, mirroring the protected members of
`class BlockNonlinearForm` in `src/fem/nonlinearform.hpp`: the field spaces
(each represented by its unknown size), the domain / boundary / boundary-face
integrator lists `dfi`, `bfi`, `ffi` with the face markers, the mutable grid
`Grads` of cached Jacobian sub-blocks (`none` = never allocated), the block
offsets, and the per-field essential vdof lists. -/
structure BlockNonlinearForm where
  fes : List ℕ
  dfi : List BlockContribution
  bfi : List BlockContribution
  ffi : List BlockContribution
  ffi_marker : List (List ℕ)
  Grads : ℕ → ℕ → Option Mat
  block_offsets : List ℕ
  block_trueOffsets : List ℕ
  ess_vdofs : List (List ℕ)

/-- All registered contributions of a block assembler, in registration
order: domain, then boundary, then boundary-face integrators. -/
def BlockNonlinearForm.allContribs (b : BlockNonlinearForm) : List BlockContribution :=
  b.dfi ++ b.bfi ++ b.ffi

/-- Modelled from the spec: the Block Partition — "an ordered sequence of
field sizes defining contiguous offsets into the global unknown vector".
`offset_j` is the sum of the sizes of the fields before field `j` (0-based
here; the spec's `offset_1` is index 0). -/
def computeOffsets (ns : List ℕ) : List ℕ :=
  (List.range ns.length).map fun j => (ns.take j).sum

/-- Modelled from the spec: `BlockNonlinearForm::SetSpaces` (body not under
`src/`): replaces the sequence of field spaces, recomputes the Block
Partition for both orderings, and invalidates any cached Jacobian grid. -/
def BlockNonlinearForm.SetSpaces (b : BlockNonlinearForm) (f : List ℕ) :
    BlockNonlinearForm :=
  { b with
    fes := f
    block_offsets := computeOffsets f
    block_trueOffsets := computeOffsets f
    Grads := fun _ _ => none }

/-- Modelled from the spec: accumulation of one grid entry inside
`BlockNonlinearForm::GetGradient` (body not under `src/`): the grid starts
all-null; every contribution that couples the pair `(i, j)` allocates the
sub-block on first touch and scatter-adds into it; a pair touched by no
contribution stays `none`. -/
def accumGridEntry (cs : List BlockContribution) (xb : ℕ → Vec) (i j : ℕ) :
    Option Mat :=
  cs.foldl
    (fun g c =>
      if c.couples i j then
        match g with
        | none => some (c.jacBlock xb i j)
        | some A => some (fun r s => A r s + c.jacBlock xb i j r s)
      else g)
    none

/-- Modelled from the spec: per-field essential elimination of one
sub-block — rows of block-row field `i` at indices in `Ei` and columns of
block-column field `j` at indices in `Ej` are zeroed; on a diagonal block
the eliminated diagonal entries are set to one. -/
def elimBlockEntry (Ei Ej : List ℕ) (diag : Bool) (A : Mat) : Mat :=
  fun r s =>
    if r ∈ Ei ∨ s ∈ Ej then
      (if diag ∧ r = s ∧ r ∈ Ei then 1 else 0)
    else A r s

/-- Modelled from the spec: `BlockNonlinearForm::GetGradient` (body not
under `src/`): discards the previous sub-matrix grid in its entirety,
accumulates every contribution's sub-blocks into a fresh grid, applies
per-field elimination (a null sub-block stays null — it is never
materialized), caches the grid and returns it. -/
def BlockNonlinearForm.GetGradient (b : BlockNonlinearForm) (xb : ℕ → Vec) :
    (ℕ → ℕ → Option Mat) × BlockNonlinearForm :=
  let grid : ℕ → ℕ → Option Mat := fun i j =>
    (accumGridEntry b.allContribs xb i j).map
      (elimBlockEntry (b.ess_vdofs.getD i []) (b.ess_vdofs.getD j []) (i == j))
  (grid, { b with Grads := grid })

/-- Matrix-vector action of one sub-block on a field slice of size `m`. -/
def matVec (A : Mat) (m : ℕ) (xj : Vec) : Vec :=
  fun r => ∑ c in Finset.range m, A r c * xj c

/-- Modelled from the spec: the Composite Block Operator treats a null
sub-block as a zero map without materializing it. -/
def applyOpt (G : Option Mat) (m : ℕ) (xj : Vec) : Vec :=
  match G with
  | none => zeroVec
  | some A => matVec A m xj

/-- Modelled from the spec: block-row `i` of the Composite Block Operator's
matrix-vector action over a grid of optional sub-blocks: the sum over all
block-columns `j` of the action of sub-block `(i, j)` on slice `j`. -/
def blockRowAction (grid : ℕ → ℕ → Option Mat) (sizes : List ℕ)
    (xb : ℕ → Vec) (i r : ℕ) : ℚ :=
  ∑ j in Finset.range sizes.length, applyOpt (grid i j) (sizes.getD j 0) (xb j) r

/-- A concrete single-field assembler with one (nonlinear) contribution and
essential vdof 1, used to instantiate the general theorems. -/
def nf0 : NonlinearForm :=
  ⟨2, [⟨fun x => fun i => x i + 1, fun x => fun i j => x i * x j⟩], none, [1]⟩

/-- A concrete single-field assembler with no contributions. -/
def nf1 : NonlinearForm := ⟨4, [], none, [2]⟩

/-- A concrete trial vector. -/
def x0 : Vec := fun i => (i : ℚ) + 3

/-- A concrete trial vector, everywhere 0. -/
def x1c : Vec := fun _ => 0

/-- A concrete trial vector, everywhere 1 (differs from `x1c`). -/
def x2c : Vec := fun _ => 1

/-- A concrete current-state vector for `SetEssentialBC`. -/
def s0 : Vec := fun _ => 7

/-- A concrete right-hand-side vector for `SetEssentialBC`. -/
def r0 : Vec := fun _ => 9

/-- A concrete block assembler with no integrators. -/
def b0 : BlockNonlinearForm :=
  ⟨[], [], [], [], [], fun _ _ => none, [], [], []⟩

/-- A concrete block contribution coupling only the field pair `(0, 0)`. -/
def c0 : BlockContribution :=
  ⟨fun i j => i == 0 && j == 0, fun _ _ _ => fun _ _ => 1⟩

/-- A concrete two-field block assembler whose single contribution couples
only `(0, 0)`, so the pair `(0, 1)` is touched by no contribution. -/
def bnf0 : BlockNonlinearForm :=
  ⟨[2, 2], [c0], [], [], [], fun _ _ => none, [0, 2], [0, 2], [[], []]⟩

/-- A concrete block trial vector. -/
def xb0 : ℕ → Vec := fun _ => fun _ => 1

end Mfem

namespace Ex9p

/-- A concrete `FE_Evolution` over rational "matrices" with no left-hand
side (`M_in_lhs = false`) and a previously valid cached Jacobian `some 5`. -/
def fe0 : FE_Evolution ℚ := ⟨false, 1, 2, none, some 5⟩

end Ex9p

open Mfem Ex9p

/-! ## Helper lemmas -/

lemma computeOffsets_getD (ns : List ℕ) (j : ℕ) (hj : j < ns.length) :
    (computeOffsets ns).getD j 0 = (ns.take j).sum := by
  unfold computeOffsets
  rw [List.getD_eq_getElem?_getD, List.getElem?_map, List.getElem?_range hj]
  rfl

lemma sum_take_succ_getD (ns : List ℕ) : ∀ j, j < ns.length →
    (ns.take (j + 1)).sum = (ns.take j).sum + ns.getD j 0 := by
  induction ns with
  | nil => intro j hj; simp at hj
  | cons a t ih =>
    intro j hj
    cases j with
    | zero => simp
    | succ m =>
      simp only [List.take_succ_cons, List.sum_cons, List.getD_cons_succ]
      rw [ih m (by simpa using hj)]
      omega

lemma sum_take_mono (ns : List ℕ) : ∀ a c, a ≤ c → (ns.take a).sum ≤ (ns.take c).sum := by
  induction ns with
  | nil => intro a c _; simp
  | cons x t ih =>
    intro a c hac
    cases a with
    | zero => simp
    | succ a2 =>
      cases c with
      | zero => exact absurd hac (Nat.not_succ_le_zero a2)
      | succ c2 =>
        simp only [List.take_succ_cons, List.sum_cons]
        exact Nat.add_le_add_left (ih a2 c2 (Nat.succ_le_succ_iff.mp hac)) x

lemma accumGridEntry_none_of_uncoupled (cs : List BlockContribution) (xb : ℕ → Vec)
    (i j : ℕ) :
    (∀ c ∈ cs, c.couples i j = false) → accumGridEntry cs xb i j = none := by
  unfold accumGridEntry
  induction cs with
  | nil => intro _; rfl
  | cons c t ih =>
    intro h
    rw [List.foldl_cons]
    have hc := h c (List.mem_cons_self c t)
    simp only [hc, Bool.false_eq_true, if_false]
    exact ih (fun c2 hc2 => h c2 (List.mem_cons_of_mem c hc2))

/-! ## Claim theorems -/

/-- C1: for every single-field assembler with essential-constraint set
`ess_vdofs`, every trial vector `x` and any registered contributions,
after `Mult` the output entries at every essential index equal the
corresponding entries of `x` (elimination is applied strictly after the
accumulation fold), and a second call with the same `x` yields identical
output (the model of `Mult` is a pure function of the assembler and `x`). -/
theorem mult_essential_entries_fixed_and_deterministic
    (nf : NonlinearForm) (x : Vec) (i : ℕ) (h : i ∈ nf.ess_vdofs) :
    nf.Mult x i = x i ∧ nf.Mult x = nf.Mult x := by
  refine ⟨?_, rfl⟩
  unfold NonlinearForm.Mult eliminateVec
  simp [h]

theorem mult_essential_entries_fixed_and_deterministic_witness :
    1 ∈ nf0.ess_vdofs ∧ (nf0.Mult x0 1 = x0 1 ∧ nf0.Mult x0 = nf0.Mult x0) :=
  ⟨by decide, mult_essential_entries_fixed_and_deterministic nf0 x0 1 (by decide)⟩

/-- C2 counterexample: in `FE_Evolution::GetGradient` (ex9p.cpp lines
500–512) the old cached Jacobian is *not* left untouched by a failed
linearization: `delete rJacobian` runs before the `HasLHS()` check, so on
the failure path (`hasLHS = false`, which ends in `mfem_error`) a previously
valid cache `some 5` has already been freed. -/
theorem getGradient_failed_request_old_cache_freed_cex :
    (fe0.GetGradient).1 = Except.error () ∧
    (fe0.GetGradient).2.rJacobian ≠ some 5 :=
  ⟨rfl, by decide⟩

/-- C2 amended: `FE_Evolution::GetGradient` frees the previously cached
Jacobian first, before attempting the new construction; on a failed request
(`hasLHS = false`, reported through the fatal `mfem_error`) the cache is
already empty rather than still holding the old matrix, and on success the
cache holds exactly the newly built matrix (a wrapper of `K`). -/
theorem getGradient_deletes_cache_before_rebuild {Mt : Type}
    (fe : FE_Evolution Mt) :
    (fe.hasLHS = false →
      (fe.GetGradient).1 = Except.error () ∧ (fe.GetGradient).2.rJacobian = none) ∧
    (fe.hasLHS = true → (fe.GetGradient).2.rJacobian = some fe.K) := by
  unfold FE_Evolution.GetGradient
  constructor
  · intro h; rw [h]; exact ⟨rfl, rfl⟩
  · intro h; rw [h]; rfl

theorem getGradient_deletes_cache_before_rebuild_witness :
    fe0.hasLHS = false ∧
    ((fe0.GetGradient).1 = Except.error () ∧ (fe0.GetGradient).2.rJacobian = none) :=
  ⟨rfl, (getGradient_deletes_cache_before_rebuild fe0).1 rfl⟩

/-- C3: after `GetGradient x1` followed by `GetGradient x2` with `x1 ≠ x2`,
the returned matrix equals the one built from scratch at `x2` on a fresh
assembler (empty cache) with the same contributions and constraints: no
residue of the `x1` accumulation remains, because each call rebuilds from
the contribution list alone and never reads the cache. -/
theorem getGradient_second_call_equals_fresh_build
    (nf : NonlinearForm) (x1 x2 : Vec) (h : x1 ≠ x2) :
    ((nf.GetGradient x1).2.GetGradient x2).1 =
      (NonlinearForm.GetGradient ⟨nf.fes, nf.dfi, none, nf.ess_vdofs⟩ x2).1 := rfl

theorem getGradient_second_call_equals_fresh_build_witness :
    x1c ≠ x2c ∧
    ((nf0.GetGradient x1c).2.GetGradient x2c).1 =
      (NonlinearForm.GetGradient ⟨nf0.fes, nf0.dfi, none, nf0.ess_vdofs⟩ x2c).1 := by
  have hne : x1c ≠ x2c := fun hq => by
    have h0 := congrFun hq 0
    simp [x1c, x2c] at h0
  exact ⟨hne, getGradient_second_call_equals_fresh_build nf0 x1c x2c hne⟩

/-- C4: after `SetSpaces` with field sizes `f = [n_1, ..., n_k]`, the block
partition invariant holds: as many fields and offsets as spaces supplied,
first offset 0, `offset_{j+1} = offset_j + n_j`, last offset plus last size
equals the total unknown size, and the offsets are monotone. -/
theorem setSpaces_block_partition_invariant (b : BlockNonlinearForm) (f : List ℕ) :
    ((b.SetSpaces f).fes.length = f.length) ∧
    ((b.SetSpaces f).block_offsets.length = f.length) ∧
    ((b.SetSpaces f).block_offsets.getD 0 0 = 0) ∧
    (∀ j, j + 1 < f.length →
      (b.SetSpaces f).block_offsets.getD (j + 1) 0
        = (b.SetSpaces f).block_offsets.getD j 0 + f.getD j 0) ∧
    (f ≠ [] →
      (b.SetSpaces f).block_offsets.getD (f.length - 1) 0
        + f.getD (f.length - 1) 0 = f.sum) ∧
    (∀ a c, a ≤ c → c < f.length →
      (b.SetSpaces f).block_offsets.getD a 0
        ≤ (b.SetSpaces f).block_offsets.getD c 0) := by
  have hbo : (b.SetSpaces f).block_offsets = computeOffsets f := rfl
  refine ⟨rfl, ?_, ?_, ?_, ?_, ?_⟩
  · rw [hbo]; unfold computeOffsets; simp
  · rw [hbo]
    cases f with
    | nil => rfl
    | cons a t => rw [computeOffsets_getD _ 0 (by simp)]; rfl
  · intro j hj
    rw [hbo, computeOffsets_getD f (j + 1) hj, computeOffsets_getD f j (by omega)]
    exact sum_take_succ_getD f j (by omega)
  · intro hne
    have hl : 0 < f.length := List.length_pos.mpr hne
    rw [hbo, computeOffsets_getD f (f.length - 1) (by omega)]
    rw [← sum_take_succ_getD f (f.length - 1) (by omega)]
    have hsucc : f.length - 1 + 1 = f.length := by omega
    rw [hsucc, List.take_length]
  · intro a c hac hc
    rw [hbo, computeOffsets_getD f a (by omega), computeOffsets_getD f c hc]
    exact sum_take_mono f a c hac

theorem setSpaces_block_partition_invariant_witness :
    ((0 : ℕ) + 1 < ([2, 3, 4] : List ℕ).length) ∧
    ((b0.SetSpaces [2, 3, 4]).block_offsets.getD 1 0
      = (b0.SetSpaces [2, 3, 4]).block_offsets.getD 0 0
        + ([2, 3, 4] : List ℕ).getD 0 0) ∧
    (([2, 3, 4] : List ℕ) ≠ []) ∧
    ((b0.SetSpaces [2, 3, 4]).block_offsets.getD 2 0
      + ([2, 3, 4] : List ℕ).getD 2 0 = ([2, 3, 4] : List ℕ).sum) :=
  ⟨by decide,
   (setSpaces_block_partition_invariant b0 [2, 3, 4]).2.2.2.1 0 (by decide),
   by decide,
   (setSpaces_block_partition_invariant b0 [2, 3, 4]).2.2.2.2.1 (by decide)⟩

/-- C5: for a multi-field assembler and a field pair `(i, j)` that no
registered contribution couples, `GetGradient` leaves the `(i, j)` grid
entry `none`; the composite block operator's action treats that null entry
as a zero map (the pair contributes exactly zero to any block-row action),
and the action equals the one that would be obtained had an explicit zero
sub-block been materialized there. -/
theorem uncoupled_pair_null_subblock_zero_action
    (b : BlockNonlinearForm) (xb : ℕ → Vec) (i j : ℕ)
    (h : b.allContribs.all (fun c => !(c.couples i j)) = true) :
    ((b.GetGradient xb).1 i j = none) ∧
    (∀ (xb2 : ℕ → Vec) (r : ℕ),
      applyOpt ((b.GetGradient xb).1 i j) (b.fes.getD j 0) (xb2 j) r = 0) ∧
    (∀ (xb2 : ℕ → Vec) (r : ℕ), blockRowAction (b.GetGradient xb).1 b.fes xb2 i r
      = blockRowAction
          (fun a c => if a = i ∧ c = j then some (fun _ _ => 0)
            else (b.GetGradient xb).1 a c)
          b.fes xb2 i r) := by
  have huc : ∀ c ∈ b.allContribs, c.couples i j = false := by
    intro c hc
    have hcb := List.all_eq_true.mp h c hc
    simpa using hcb
  have hnone : (b.GetGradient xb).1 i j = none := by
    show ((accumGridEntry b.allContribs xb i j).map _) = none
    rw [accumGridEntry_none_of_uncoupled b.allContribs xb i j huc]
    rfl
  refine ⟨hnone, ?_, ?_⟩
  · intro xb2 r; rw [hnone]; rfl
  · intro xb2 r
    unfold blockRowAction
    apply Finset.sum_congr rfl
    intro jj hjj
    by_cases hjeq : jj = j
    · subst hjeq
      rw [hnone]
      simp [applyOpt, matVec, zeroVec]
    · simp [hjeq]

theorem uncoupled_pair_null_subblock_zero_action_witness :
    (bnf0.allContribs.all (fun c => !(c.couples 0 1)) = true) ∧
    ((bnf0.GetGradient xb0).1 0 1 = none) :=
  ⟨by decide, (uncoupled_pair_null_subblock_zero_action bnf0 xb0 0 1 (by decide)).1⟩

/-- C6: for a single-field assembler with no registered contributions,
`Mult` returns the vector that is zero everywhere except at essential
indices (where it equals `x`), and `GetGradient` returns the matrix that is
zero except for unit diagonal entries at essential indices; both are
ordinary total results of the model, not errors. -/
theorem no_contributions_zero_residual_identity_jacobian
    (nf : NonlinearForm) (x : Vec) (h : nf.dfi = []) :
    (∀ i, nf.Mult x i = if i ∈ nf.ess_vdofs then x i else 0) ∧
    (∀ i j, (nf.GetGradient x).1 i j =
      if i = j ∧ i ∈ nf.ess_vdofs then 1 else 0) := by
  have hacc : nf.accumulate x = zeroVec := by
    unfold NonlinearForm.accumulate; rw [h]; rfl
  constructor
  · intro i
    unfold NonlinearForm.Mult eliminateVec
    rw [hacc]
    by_cases hi : i ∈ nf.ess_vdofs <;> simp [hi, zeroVec]
  · intro i j
    show nf.assembleGrad x i j = _
    unfold NonlinearForm.assembleGrad
    rw [h]
    simp only [List.foldl_nil]
    split_ifs <;> first | rfl | tauto

theorem no_contributions_zero_residual_identity_jacobian_witness :
    nf1.dfi = [] ∧
    (nf1.Mult x0 5 = if 5 ∈ nf1.ess_vdofs then x0 5 else 0) ∧
    ((nf1.GetGradient x0).1 2 2 = if 2 = 2 ∧ 2 ∈ nf1.ess_vdofs then 1 else 0) :=
  ⟨rfl,
   (no_contributions_zero_residual_identity_jacobian nf1 x0 rfl).1 5,
   (no_contributions_zero_residual_identity_jacobian nf1 x0 rfl).2 2 2⟩

/-- C7: when `SetEssentialBC` is called with a supplied (non-null) rhs
vector, the rhs entries at the resolved essential dof indices are
overwritten with the corresponding values of the current state at call
time, and every entry at a non-essential index is left unchanged. -/
theorem setEssentialBC_rhs_overwrite_frame
    (nf : NonlinearForm) (resolved : List ℕ) (state r : Vec) (i : ℕ) :
    (i ∈ resolved →
      ((nf.SetEssentialBC resolved state (some r)).2.getD zeroVec) i = state i) ∧
    (i ∉ resolved →
      ((nf.SetEssentialBC resolved state (some r)).2.getD zeroVec) i = r i) := by
  unfold NonlinearForm.SetEssentialBC
  constructor
  · intro hi; simp [hi]
  · intro hi; simp [hi]

theorem setEssentialBC_rhs_overwrite_frame_witness :
    ((0 : ℕ) ∈ ([0] : List ℕ) ∧
      ((nf0.SetEssentialBC [0] s0 (some r0)).2.getD zeroVec) 0 = s0 0) ∧
    ((5 : ℕ) ∉ ([0] : List ℕ) ∧
      ((nf0.SetEssentialBC [0] s0 (some r0)).2.getD zeroVec) 5 = r0 5) :=
  ⟨⟨by decide, (setEssentialBC_rhs_overwrite_frame nf0 [0] s0 r0 0).1 (by decide)⟩,
   ⟨by decide, (setEssentialBC_rhs_overwrite_frame nf0 [0] s0 r0 5).2 (by decide)⟩⟩

/-- C8: `inflow_function` returns exactly `0.0` for every input point and
every value of the global `problem` selector, including values outside the
handled range 0..3 (the switch falls through to the trailing
`return 0.0;`). -/
theorem inflow_function_always_zero (problem : ℤ) (x : List ℚ) :
    inflow_function problem x = 0 := by
  unfold inflow_function
  split <;> rfl

/-- C9: for every input point, bounding box, constant values and incoming
output vector, `velocity_function` with problem selector 1 produces exactly
the same result as with selector 2: the two case labels share one switch
branch (the clockwise rotation). -/
theorem velocity_function_selector_one_eq_two
    (piv s23 s13 s36 s26 s16 : ℚ) (bmin bmax x v : List ℚ) :
    velocity_function piv s23 s13 s36 s26 s16 bmin bmax 1 x v =
      velocity_function piv s23 s13 s36 s26 s16 bmin bmax 2 x v := rfl

/-- C10: `SetEssentialVDofs` replaces the essential-vdof list wholesale
with (a copy of) the supplied list, and modifies nothing else: the
contribution list, the field space and the cached Jacobian are all
untouched (the supplied list itself is not modified — the model is pure and
the C++ parameter is a `const` reference that `Array::Copy` only reads). -/
theorem setEssentialVDofs_replaces_wholesale_frame
    (nf : NonlinearForm) (ess_vdofs_list : List ℕ) :
    (nf.SetEssentialVDofs ess_vdofs_list).ess_vdofs = ess_vdofs_list ∧
    (nf.SetEssentialVDofs ess_vdofs_list).dfi = nf.dfi ∧
    (nf.SetEssentialVDofs ess_vdofs_list).fes = nf.fes ∧
    (nf.SetEssentialVDofs ess_vdofs_list).Grad = nf.Grad :=
  ⟨rfl, rfl, rfl, rfl⟩
